import Mathlib

/-!
# Verification of the XRP wallet manager

A shallow embedding, in Lean 4, of the behaviour-relevant parts of the
xrp-wallet-manager application (secret parsing and secp256k1 public-key
derivation, the encrypted multi-wallet store envelope scheme, transaction
history normalization, amount formatting, address validation, signer-list
cost estimation, the multisig submission gate, wallet addition, and the
legacy wallet decryption utility), together with theorems settling the
frozen claims about it.

Conventions:
* Python `bytes` values are `List Nat` with every element < 256; the range
  is tracked by lemmas rather than by the type.
* Python `str` values are `List Char` (or `String` for plain identifiers).
* Machine integers are `Nat`/`Int` with explicit `% 2^w` where the source
  wraps (SHA-256 words are reduced mod 2^32 at each operation).
* Fallible code returns `Option`/`Except`/a result inductive mirroring the
  source's exception structure.
-/

set_option maxRecDepth 100000

/-- Byte strings: natural numbers, each < 256 (tracked by lemmas). -/
abbrev Bytes := List Nat

/-- Pointwise XOR of two byte strings, truncating to the shorter one.  This is
Python `bytes(a ^ b for a, b in zip(chunk, keystream))`. -/
def zipXor (a b : Bytes) : Bytes := List.zipWith (fun x y => x ^^^ y) a b

/-- Big-endian encoding of `v` on exactly `w` bytes
(Python `v.to_bytes(w, "big")` for in-range `v`; wraps otherwise). -/
def beBytes : Nat → Nat → Bytes
  | 0, _ => []
  | w + 1, v => beBytes w (v / 256) ++ [v % 256]

/-- Big-endian value of a byte string (Python `int.from_bytes(b, "big")`). -/
def beVal (b : Bytes) : Nat := b.foldl (fun acc x => 256 * acc + x) 0

/-! ## SHA-256

A byte-level implementation of FIPS 180-4 SHA-256.  The application reaches
SHA-256 through `hashlib` / `cryptography`; this is the reference function
those libraries compute.  Words are `Nat` reduced mod 2^32 at every step. -/

/-- Right-rotation of a 32-bit word. -/
def rotr32 (n x : Nat) : Nat := ((x >>> n) ||| (x <<< (32 - n))) % 4294967296

/-- SHA-256 `Ch(x, y, z)`; `¬x` is XOR against the 32-bit all-ones mask. -/
def shaCh (x y z : Nat) : Nat := (x &&& y) ^^^ ((x ^^^ 4294967295) &&& z)

/-- SHA-256 `Maj(x, y, z)`. -/
def shaMaj (x y z : Nat) : Nat := (x &&& y) ^^^ (x &&& z) ^^^ (y &&& z)

/-- SHA-256 `Σ0`. -/
def bigSigma0 (x : Nat) : Nat := rotr32 2 x ^^^ rotr32 13 x ^^^ rotr32 22 x

/-- SHA-256 `Σ1`. -/
def bigSigma1 (x : Nat) : Nat := rotr32 6 x ^^^ rotr32 11 x ^^^ rotr32 25 x

/-- SHA-256 `σ0`. -/
def smallSigma0 (x : Nat) : Nat := rotr32 7 x ^^^ rotr32 18 x ^^^ (x >>> 3)

/-- SHA-256 `σ1`. -/
def smallSigma1 (x : Nat) : Nat := rotr32 17 x ^^^ rotr32 19 x ^^^ (x >>> 10)

/-- The 64 SHA-256 round constants of FIPS 180-4 (the first 32 bits of
the fractional parts of the cube roots of the first 64 primes), written in
decimal. -/
def shaK : List Nat :=
  [1116352408, 1899447441, 3049323471, 3921009573, 961987163,
   1508970993, 2453635748, 2870763221, 3624381080, 310598401,
   607225278, 1426881987, 1925078388, 2162078206, 2614888103,
   3248222580, 3835390401, 4022224774, 264347078, 604807628,
   770255983, 1249150122, 1555081692, 1996064986, 2554220882,
   2821834349, 2952996808, 3210313671, 3336571891, 3584528711,
   113926993, 338241895, 666307205, 773529912, 1294757372,
   1396182291, 1695183700, 1986661051, 2177026350, 2456956037,
   2730485921, 2820302411, 3259730800, 3345764771, 3516065817,
   3600352804, 4094571909, 275423344, 430227734, 506948616,
   659060556, 883997877, 958139571, 1322822218, 1537002063,
   1747873779, 1955562222, 2024104815, 2227730452, 2361852424,
   2428436474, 2756734187, 3204031479, 3329325298]

/-- SHA-256 working state: the eight 32-bit words a–h. -/
structure Sha2State where
  a : Nat
  b : Nat
  c : Nat
  d : Nat
  e : Nat
  f : Nat
  g : Nat
  h : Nat

/-- SHA-256 initial hash value (FIPS 180-4 square-root constants, in
decimal). -/
def shaInit : Sha2State :=
  ⟨1779033703, 3144134277, 1013904242, 2773480762,
   1359893119, 2600822924, 528734635, 1541459225⟩

/-- Extend a message schedule by one word. -/
def schedStep (ws : List Nat) : List Nat :=
  let n := ws.length
  ws ++ [(smallSigma1 (ws.getD (n - 2) 0) + ws.getD (n - 7) 0 +
          smallSigma0 (ws.getD (n - 15) 0) + ws.getD (n - 16) 0) % 4294967296]

/-- The 64-word message schedule from the 16 chunk words. -/
def schedule (w0 : List Nat) : List Nat :=
  (List.range 48).foldl (fun acc _ => schedStep acc) w0

/-- One SHA-256 round, consuming a (round constant, schedule word) pair. -/
def shaRound (st : Sha2State) (kw : Nat × Nat) : Sha2State :=
  let t1 := (st.h + bigSigma1 st.e + shaCh st.e st.f st.g + kw.1 + kw.2) % 4294967296
  let t2 := (bigSigma0 st.a + shaMaj st.a st.b st.c) % 4294967296
  ⟨(t1 + t2) % 4294967296, st.a, st.b, st.c,
   (st.d + t1) % 4294967296, st.e, st.f, st.g⟩

/-- The 16 big-endian 32-bit words of a 64-byte chunk. -/
def chunkWords (chunk : Bytes) : List Nat :=
  (List.range 16).map (fun i =>
    chunk.getD (4 * i) 0 * 16777216 + chunk.getD (4 * i + 1) 0 * 65536 +
    chunk.getD (4 * i + 2) 0 * 256 + chunk.getD (4 * i + 3) 0)

/-- SHA-256 compression of one 64-byte chunk into the running state. -/
def shaCompress (st : Sha2State) (chunk : Bytes) : Sha2State :=
  let fin := (List.zip shaK (schedule (chunkWords chunk))).foldl shaRound st
  ⟨(st.a + fin.a) % 4294967296, (st.b + fin.b) % 4294967296,
   (st.c + fin.c) % 4294967296, (st.d + fin.d) % 4294967296,
   (st.e + fin.e) % 4294967296, (st.f + fin.f) % 4294967296,
   (st.g + fin.g) % 4294967296, (st.h + fin.h) % 4294967296⟩

/-- SHA-256 padding: `0x80`, zeros, then the bit length on 8 bytes, to a
multiple of 64 bytes. -/
def shaPad (msg : Bytes) : Bytes :=
  msg ++ [128] ++ List.replicate ((64 - (msg.length + 9) % 64) % 64) 0 ++
    beBytes 8 (8 * msg.length)

/-- SHA-256 of a byte string: 32 digest bytes. -/
def sha256 (msg : Bytes) : Bytes :=
  let padded := shaPad msg
  let fin := (List.range (padded.length / 64)).foldl
    (fun st i => shaCompress st ((padded.drop (64 * i)).take 64)) shaInit
  beBytes 4 fin.a ++ beBytes 4 fin.b ++ beBytes 4 fin.c ++ beBytes 4 fin.d ++
    beBytes 4 fin.e ++ beBytes 4 fin.f ++ beBytes 4 fin.g ++ beBytes 4 fin.h

/-! ## HMAC-SHA256 and PBKDF2-HMAC-SHA256 (RFC 2104 / RFC 2898) -/

/-- HMAC-SHA256.  Keys longer than the 64-byte block are first hashed;
the key is zero-padded to 64 bytes and XORed with the ipad/opad masks. -/
def hmacSha256 (key msg : Bytes) : Bytes :=
  let k0 := if 64 < key.length then sha256 key else key
  let k := k0 ++ List.replicate (64 - k0.length) 0
  sha256 ((k.map (fun b => b ^^^ 0x5c)) ++
          sha256 ((k.map (fun b => b ^^^ 0x36)) ++ msg))

/-- The iterated-XOR core of one PBKDF2 block: `n` further HMAC iterations,
with `u` the previous HMAC output and `t` the running XOR accumulator. -/
def pbkdf2Iter (pw : Bytes) : Nat → Bytes → Bytes → Bytes
  | 0, _, t => t
  | n + 1, u, t =>
    let u2 := hmacSha256 pw u
    pbkdf2Iter pw n u2 (zipXor t u2)

/-- Block `i` (1-based) of PBKDF2-HMAC-SHA256. -/
def pbkdf2Block (pw salt : Bytes) (iters i : Nat) : Bytes :=
  let u1 := hmacSha256 pw (salt ++ beBytes 4 i)
  pbkdf2Iter pw (iters - 1) u1 u1

/-- PBKDF2-HMAC-SHA256 with derived-key length `dklen`
(Python `hashlib.pbkdf2_hmac("sha256", pw, salt, iters, dklen)`). -/
def pbkdf2Sha256 (pw salt : Bytes) (iters dklen : Nat) : Bytes :=
  ((List.range ((dklen + 31) / 32)).map
    (fun i => pbkdf2Block pw salt iters (i + 1))).join.take dklen

/-! ## The encrypted multi-wallet store envelope (gui.py, `MultiWalletManager`)

`_derive_keys`, `_stream_cipher`, `_encrypt_payload` and
`_load_encrypted_store`, embedded at the byte level.  Base64 transport
encoding is a bijection on byte strings, so envelope fields are modelled as
the raw bytes they decode to.  JSON serialization of the payload dict is the
`json` library boundary: the embedding is parameterized by a serializer
`jdumps` and parser `jloads` for an arbitrary payload type, with the library
contract `jloads (jdumps x) = some x` supplied as a hypothesis where a
theorem needs it. -/

/-- `_derive_keys`: PBKDF2-HMAC-SHA256 with 64 derived bytes; the first 32
are the encryption key, the last 32 the MAC key. -/
def deriveKeys (password salt : Bytes) (iterations : Nat) : Bytes × Bytes :=
  let derived := pbkdf2Sha256 password salt iterations 64
  (derived.take 32, derived.drop 32)

/-- `_stream_cipher` from counter value `ctr`: each 32-byte keystream block is
`HMAC-SHA256(key, nonce ++ ctr.to_bytes(8, "big"))`, XORed against the next
at most 32 bytes of the data; the counter then increments. -/
def streamCipherFrom (key nonce : Bytes) (ctr : Nat) (data : Bytes) : Bytes :=
  if h : data = [] then []
  else
    zipXor (data.take 32) (hmacSha256 key (nonce ++ beBytes 8 ctr)) ++
      streamCipherFrom key nonce (ctr + 1) (data.drop 32)
termination_by data.length
decreasing_by
  have hpos : 0 < data.length := List.length_pos.mpr h
  simp only [List.length_drop]
  omega

/-- `_stream_cipher`: the keystream cipher with the counter starting at 0. -/
def streamCipher (key nonce data : Bytes) : Bytes := streamCipherFrom key nonce 0 data

/-- The on-disk envelope (`_encrypt_payload` output): version, salt, KDF
iteration count, nonce, MAC and ciphertext, as raw bytes. -/
structure Envelope where
  version : Nat
  salt : Bytes
  nonce : Bytes
  mac : Bytes
  ciphertext : Bytes
  iterations : Nat

/-- Failures of `_load_encrypted_store` past envelope parsing: the MAC
comparison rejecting the password (ValueError: incorrect password or
corrupted wallet storage), or the decrypted plaintext not parsing as JSON. -/
inductive LoadErr
  | authenticationFailure
  | payloadNotJson
deriving DecidableEq

/-- `_encrypt_payload`: fresh `salt`/`nonce` are drawn by the caller
(`secrets.token_bytes(16)`, modelled as parameters), keys are derived from
the manager password, the JSON-serialized payload is stream-ciphered, and
the MAC authenticates `nonce ++ ciphertext`. -/
def encryptPayload {α : Type} (jdumps : α → Bytes) (password salt nonce : Bytes)
    (iterations : Nat) (payload : α) : Envelope :=
  let keys := deriveKeys password salt iterations
  let ciphertext := streamCipher keys.1 nonce (jdumps payload)
  ⟨1, salt, nonce, hmacSha256 keys.2 (nonce ++ ciphertext), ciphertext, iterations⟩

/-- `_load_encrypted_store`: derive keys with the envelope's iteration
count, recompute the MAC over `nonce ++ ciphertext`, compare with the stored
MAC (`hmac.compare_digest`, i.e. equality), and only then decrypt and parse
the payload.  On MAC mismatch nothing is decrypted.  The store-state updates
performed after a successful parse (password, iteration count, wallet maps)
are outside this function's model. -/
def loadEncryptedStore {α : Type} (jloads : Bytes → Option α) (password : Bytes)
    (env : Envelope) : Except LoadErr α :=
  let keys := deriveKeys password env.salt env.iterations
  if env.mac = hmacSha256 keys.2 (env.nonce ++ env.ciphertext) then
    match jloads (streamCipher keys.1 env.nonce env.ciphertext) with
    | some payload => Except.ok payload
    | none => Except.error LoadErr.payloadNotJson
  else
    Except.error LoadErr.authenticationFailure

/-! ## Character and string helpers (Python `str` operations on `List Char`)

The secrets handled by the application are ASCII; these helpers implement
the Python string operations they pass through (`strip`, `upper`, `lower`,
`startswith`, the `^[0-9A-F]+$` regex, `int(s, 16)`, `bytes.hex()`) for the
ASCII range. -/

/-- Python whitespace for `str.strip` (space, tab, LF, CR, VT, FF). -/
def pyWhitespace (c : Char) : Bool :=
  c.toNat == 32 || c.toNat == 9 || c.toNat == 10 ||
    c.toNat == 13 || c.toNat == 11 || c.toNat == 12

/-- Python `str.strip()`. -/
def pyStrip (s : List Char) : List Char :=
  ((s.dropWhile pyWhitespace).reverse.dropWhile pyWhitespace).reverse

/-- Python `str.upper()` on one ASCII character. -/
def pyUpperChar (c : Char) : Char :=
  if 97 ≤ c.toNat ∧ c.toNat ≤ 122 then Char.ofNat (c.toNat - 32) else c

/-- Python `str.lower()` on one ASCII character. -/
def pyLowerChar (c : Char) : Char :=
  if 65 ≤ c.toNat ∧ c.toNat ≤ 90 then Char.ofNat (c.toNat + 32) else c

/-- An uppercase hexadecimal digit (`[0-9A-F]`, the `HEX_PATTERN` class). -/
def isUpperHexChar (c : Char) : Bool :=
  (48 ≤ c.toNat && c.toNat ≤ 57) || (65 ≤ c.toNat && c.toNat ≤ 70)

/-- Any hexadecimal digit (`[0-9A-Fa-f]`). -/
def isPyHexDigit (c : Char) : Bool :=
  (48 ≤ c.toNat && c.toNat ≤ 57) || (65 ≤ c.toNat && c.toNat ≤ 70) ||
    (97 ≤ c.toNat && c.toNat ≤ 102)

/-- `HEX_PATTERN.fullmatch(s) is not None`: nonempty, all `[0-9A-F]`. -/
def hexPatternMatch (s : List Char) : Bool := !s.isEmpty && s.all isUpperHexChar

/-- Value of one hexadecimal digit character. -/
def hexCharVal (c : Char) : Nat :=
  if c.toNat ≤ 57 then c.toNat - 48
  else if c.toNat ≤ 70 then c.toNat - 55
  else c.toNat - 87

/-- Python `int(s, 16)` for a hex-digit string. -/
def hexVal (s : List Char) : Nat := s.foldl (fun a c => 16 * a + hexCharVal c) 0

/-- The uppercase hexadecimal digit character for a value < 16. -/
def hexDigitU (n : Nat) : Char :=
  if n < 10 then Char.ofNat (48 + n) else Char.ofNat (55 + n)

/-- Fixed-width uppercase hexadecimal rendering of `v` on `w` digits
(`bytes.hex().upper()` of a fixed-width big-endian encoding). -/
def toHexU : Nat → Nat → List Char
  | 0, _ => []
  | w + 1, v => toHexU w (v / 16) ++ [hexDigitU (v % 16)]

/-! ## secp256k1 public-key derivation (`_derive_public_key_secp256k1`)

The in-repo derivation parses the 64-hex private key as a big-endian scalar
`d` and asks the `ecpy` curve library for the compressed encoding of `d·G`.
The curve arithmetic is embedded here directly: affine points over the
secp256k1 prime field, `none` for the point at infinity, binary
double-and-add scalar multiplication (any correct ladder computes the same
group element).  Encoding the point at infinity has no compressed form and
raises inside the library, which the embedding surfaces as `none`. -/

/-- The secp256k1 field prime `2^256 - 2^32 - 977`. -/
def secpP : Nat :=
  115792089237316195423570985008687907853269984665640564039457584007908834671663

/-- The secp256k1 base field. -/
abbrev Fp := ZMod secpP

/-- Affine secp256k1 point addition on `Option` points (`none` = infinity),
by the standard chord/tangent formulas (curve `y^2 = x^3 + 7`). -/
def pAdd : Option (Fp × Fp) → Option (Fp × Fp) → Option (Fp × Fp)
  | none, q => q
  | p, none => p
  | some (x1, y1), some (x2, y2) =>
    if x1 = x2 then
      if y1 = -y2 then none
      else
        let l := (3 * x1 ^ 2) * (2 * y1)⁻¹
        let x3 := l ^ 2 - 2 * x1
        some (x3, l * (x1 - x3) - y1)
    else
      let l := (y2 - y1) * (x2 - x1)⁻¹
      let x3 := l ^ 2 - x1 - x2
      some (x3, l * (x1 - x3) - y1)

/-- Binary least-significant-bit-first double-and-add, with enough fuel for
any 256-bit scalar (the scalar halves each step). -/
def ecMulAux : Nat → Nat → Option (Fp × Fp) → Option (Fp × Fp) → Option (Fp × Fp)
  | 0, _, _, acc => acc
  | fuel + 1, k, p, acc =>
    if k = 0 then acc
    else ecMulAux fuel (k / 2) (pAdd p p) (if k % 2 = 1 then pAdd acc p else acc)

/-- `k·P` on secp256k1; `none` is the point at infinity (in particular for
`k = 0`). -/
def ecMul (k : Nat) (p0 : Fp × Fp) : Option (Fp × Fp) := ecMulAux 256 k (some p0) none

/-- The secp256k1 generator. -/
def secpG : Fp × Fp :=
  ((0x79BE667EF9DCBBAC55A06295CE870B07029BFCDB2DCE28D959F2815B16F81798 : Fp),
   (0x483ADA7726A3C4655DA4FBFC0E1108A8FD17B448A68554199C47D08FFB10D4B8 : Fp))

/-- Compressed-point encoding rendered as uppercase hex: parity prefix byte
`02`/`03` followed by the X coordinate on 32 bytes (66 hex characters). -/
def encodeCompressedHex (p0 : Fp × Fp) : List Char :=
  (if p0.2.val % 2 = 0 then ['0', '2'] else ['0', '3']) ++ toHexU 64 p0.1.val

/-- `_derive_public_key_secp256k1`: uppercase the hex key, parse it as a
big-endian scalar, multiply the generator, and encode compressed.  `none`
models the library exception raised when `d·G` is the point at infinity
(scalar ≡ 0 mod group order), which has no compressed encoding. -/
def derivePublicKeySecp256k1 (privateKeyHex : List Char) : Option (List Char) :=
  match ecMul (hexVal (privateKeyHex.map pyUpperChar)) secpG with
  | some p0 => some (encodeCompressedHex p0)
  | none => none

/-! ## Secret parsing (`create_wallet_from_secret`, xrp_wallet.py) -/

/-- `SecretInfo.secret_type`. -/
inductive SecretType
  | seed
  | privateKey
deriving DecidableEq

/-- `CryptoAlgorithm` as used by the app. -/
inductive WalletAlgorithm
  | ed25519
  | secp256k1
deriving DecidableEq

/-- `SecretInfo`: the canonical wallet-secret record. -/
structure SecretInfo where
  secret : List Char
  secretType : SecretType
  algorithm : WalletAlgorithm
  publicKey : List Char
  privateKey : List Char
deriving DecidableEq

/-- The `ValueError` messages `create_wallet_from_secret` raises itself:
`emptySecret` is "Secret value is empty", `edHintMismatch` is the
ed25519-hint-without-ED-prefix rejection, and `unrecognizedFormat` is
"Unrecognized secret format. Provide a valid XRP seed or private key.". -/
inductive ParseErr
  | emptySecret
  | edHintMismatch
  | unrecognizedFormat
deriving DecidableEq

/-- Outcome of `create_wallet_from_secret`.  `seedDelegated` is the branch
for secrets starting with `s`, handed to the external `Wallet.from_seed`;
`edDelegated` is the ED-prefixed raw-key branch, whose public key comes from
the external EdDSA derivation; `exn` is a non-ValueError library exception
escaping the call (the secp256k1 derivation failing on the point at
infinity). -/
inductive ParseOutcome
  | ok (info : SecretInfo)
  | seedDelegated (candidate : List Char)
  | edDelegated (normalized : List Char)
  | err (e : ParseErr)
  | exn
deriving DecidableEq

/-- Whether a parse outcome is a successful return. -/
def ParseOutcome.isOk : ParseOutcome → Bool
  | ParseOutcome.ok _ => true
  | _ => false

/-- `create_wallet_from_secret(secret, public_key=publicKey,
algorithm_hint=algorithmHint)`.  Mirrors the source order: the falsy check
on the untrimmed input, the seed branch on a leading `s` of the trimmed
value, uppercasing, the ED-prefix 66-hex branch, then the 64-hex secp256k1
branch (rejecting an explicit ed25519 hint), and otherwise the unrecognized
format error.  `public_key or derive(...)` evaluates the derivation only
when the supplied public key is falsy (absent or empty). -/
def createWalletFromSecret (secret : List Char) (publicKey : Option (List Char))
    (algorithmHint : Option (List Char)) : ParseOutcome :=
  if secret = [] then ParseOutcome.err ParseErr.emptySecret
  else
    let candidate := pyStrip secret
    if candidate.take 1 = ['s'] then ParseOutcome.seedDelegated candidate
    else
      let normalized := candidate.map pyUpperChar
      let algoHint := (algorithmHint.getD []).map pyLowerChar
      if normalized.take 2 = ['E', 'D'] ∧ normalized.length = 66 ∧
          hexPatternMatch (normalized.drop 2) = true then
        ParseOutcome.edDelegated normalized
      else if hexPatternMatch normalized = true ∧ normalized.length = 64 then
        if algoHint = ['e', 'd', '2', '5', '5', '1', '9'] then
          ParseOutcome.err ParseErr.edHintMismatch
        else
          match (match publicKey with
                 | some pk => if pk = [] then derivePublicKeySecp256k1 normalized else some pk
                 | none => derivePublicKeySecp256k1 normalized) with
          | some pk => ParseOutcome.ok ⟨normalized, SecretType.privateKey,
              WalletAlgorithm.secp256k1, pk, normalized⟩
          | none => ParseOutcome.exn
      else ParseOutcome.err ParseErr.unrecognizedFormat

/-! ## Address validation (`XRPWalletManager.validate_address`) -/

/-- What the ledger account-info request inside `validate_address` does:
`completes` covers every returned response (account found, account not
found, any ledger error response); `raises` covers the request raising
(connection failure, timeout, client error), caught by the bare `except`. -/
inductive QueryOutcome
  | completes
  | raises
deriving DecidableEq

/-- `validate_address`: format checks (leading `r`, length 25–34) come
first and return `False` directly; then the account-info request runs, any
returned response yields `True`, and a raised exception is caught and
yields `False`. -/
def validateAddress (address : List Char) (q : QueryOutcome) : Bool :=
  if address.take 1 ≠ ['r'] then false
  else if address.length < 25 ∨ 34 < address.length then false
  else
    match q with
    | QueryOutcome.completes => true
    | QueryOutcome.raises => false

/-- The format predicate of the spec: leading `r`, length 25–34. -/
def addressFormatValid (address : List Char) : Bool :=
  address.take 1 = ['r'] && 25 ≤ address.length && address.length ≤ 34

/-! ## Signer-list cost estimation (`estimate_signer_list_cost`)

The source converts the network-info reserve figures through
`Decimal(str(...))` and multiplies/adds exactly; the trailing `float(...)`
casts are value-preserving display conversions at the precision involved.
Reserve values and results are modelled as rationals. -/

/-- The result record of `estimate_signer_list_cost`. -/
structure SignerListCost where
  reserveBase : ℚ
  reserveIncrement : ℚ
  signerCount : ℤ
  additionalReserve : ℚ
  totalReserve : ℚ
deriving DecidableEq

/-- `estimate_signer_list_cost(signer_count)` given network info reporting
`reserve_base` and `reserve_inc`: `additional = reserve_inc *
max(signer_count, 0)`, `total = reserve_base + additional`. -/
def estimateSignerListCost (reserveBase reserveInc : ℚ) (signerCount : ℤ) : SignerListCost :=
  let additional := reserveInc * ((max signerCount 0 : ℤ) : ℚ)
  ⟨reserveBase, reserveInc, signerCount, additional, reserveBase + additional⟩

/-! ## Python `Decimal` (nonnegative values) and amount formatting

`_format_amount` and `_format_fee` pass ledger amounts through
`decimal.Decimal` and `xrpl.utils.drops_to_xrp` (which multiplies by
`Decimal("0.000001")`).  A nonnegative `Decimal` is a coefficient and an
exponent; rendering follows the to-scientific-string algorithm of the
decimal specification (fixed point when `exp ≤ 0` and the adjusted exponent
is at least -6, scientific otherwise).  Signs, `NaN`/infinity and float
inputs do not occur in the amounts the application formats and are outside
the model. -/

/-- A nonnegative Python `Decimal`: `coeff * 10 ^ exp`. -/
structure PyDecimal where
  coeff : Nat
  exp : Int
deriving DecidableEq

/-- Decimal digits of `n`, most significant first, with `fuel` bounding the
recursion (`fuel = n + 1` always suffices). -/
def natDigitsGo : Nat → Nat → List Char
  | 0, _ => []
  | fuel + 1, n =>
    if n = 0 then [] else natDigitsGo fuel (n / 10) ++ [Char.ofNat (48 + n % 10)]

/-- Decimal digit string of `n` (Python `str(n)` for `n : int ≥ 0`). -/
def natDigits (n : Nat) : List Char :=
  if n = 0 then ['0'] else natDigitsGo (n + 1) n

/-- An ASCII decimal digit. -/
def isDigitChar (c : Char) : Bool := 48 ≤ c.toNat && c.toNat ≤ 57

/-- Python `s.isdigit()` for ASCII strings. -/
def pyIsDigit (s : List Char) : Bool := !s.isEmpty && s.all isDigitChar

/-- Numeric value of an ASCII digit string. -/
def digitsVal (s : List Char) : Nat := s.foldl (fun a c => 10 * a + (c.toNat - 48)) 0

/-- `str(Decimal(...))` for a nonnegative decimal, per the decimal
specification's to-scientific-string conversion. -/
def decRender (d : PyDecimal) : List Char :=
  let digits := natDigits d.coeff
  let adjusted : Int := d.exp + digits.length - 1
  if d.exp ≤ 0 ∧ -6 ≤ adjusted then
    if d.exp = 0 then digits
    else if 0 < (digits.length : Int) + d.exp then
      let k := ((digits.length : Int) + d.exp).toNat
      digits.take k ++ ['.'] ++ digits.drop k
    else
      ['0', '.'] ++ List.replicate ((-d.exp - digits.length).toNat) '0' ++ digits
  else
    digits.take 1 ++ (if 1 < digits.length then ['.'] ++ digits.drop 1 else []) ++
      ['E'] ++ (if adjusted < 0 then ['-'] else ['+']) ++ natDigits adjusted.natAbs

/-- `Decimal(s)` for the plain `digits[.digits]` strings the application
feeds it (other accepted spellings such as signs or exponents do not occur
in its inputs); `none` is the conversion raising. -/
def parsePyDecimal (s : List Char) : Option PyDecimal :=
  let ip := s.takeWhile (fun c => c ≠ '.')
  let rest := s.dropWhile (fun c => c ≠ '.')
  match rest with
  | [] =>
    if ip ≠ [] ∧ ip.all isDigitChar = true then some ⟨digitsVal ip, 0⟩ else none
  | _ :: fp =>
    if (ip ++ fp) ≠ [] ∧ (ip ++ fp).all isDigitChar = true ∧ fp.all (fun c => c ≠ '.') = true
    then some ⟨digitsVal (ip ++ fp), -(fp.length : Int)⟩
    else none

/-- Whether a decimal equals its `to_integral_value()`. -/
def decIsIntegral (d : PyDecimal) : Bool :=
  if 0 ≤ d.exp then true else d.coeff % 10 ^ (-d.exp).toNat = 0

/-- The integer value of an integral decimal. -/
def decIntVal (d : PyDecimal) : Nat :=
  if 0 ≤ d.exp then d.coeff * 10 ^ d.exp.toNat else d.coeff / 10 ^ (-d.exp).toNat

/-- `quantize(Decimal("0.000001"))`: rescale to exponent -6, rounding
half-even when precision is dropped. -/
def quantE6 (d : PyDecimal) : PyDecimal :=
  if -6 ≤ d.exp then ⟨d.coeff * 10 ^ (d.exp + 6).toNat, -6⟩
  else
    let k := 10 ^ ((-6 - d.exp).toNat)
    let q := d.coeff / k
    let r := d.coeff % k
    if 2 * r < k then ⟨q, -6⟩
    else if k < 2 * r then ⟨q + 1, -6⟩
    else if q % 2 = 0 then ⟨q, -6⟩ else ⟨q + 1, -6⟩

/-- `xrpl.utils.drops_to_xrp`: for a digit string, `Decimal(s)` times
`ONE_DROP = Decimal("0.000001")` — coefficient unchanged, exponent -6.
(The library's range check rejects more than 10^17 drops; the applicability
condition is recorded where the function is used.) -/
def dropsToXrp (s : List Char) : PyDecimal := ⟨digitsVal s, -6⟩

/-- Values flowing through the loosely-typed ledger records: `None`,
strings, nonnegative integers, and string-keyed dicts. -/
inductive PyVal
  | vNone
  | vStr (s : String)
  | vInt (n : Nat)
  | vDict (entries : List (String × PyVal))

mutual

/-- Python `repr` of a `PyVal` (single-quoted strings, brace-wrapped
dicts). -/
def pyValRepr : PyVal → List Char
  | PyVal.vNone => ['N', 'o', 'n', 'e']
  | PyVal.vStr s => [Char.ofNat 39] ++ s.data ++ [Char.ofNat 39]
  | PyVal.vInt n => natDigits n
  | PyVal.vDict entries => [Char.ofNat 123] ++ pyValReprEntries entries ++ [Char.ofNat 125]

/-- Comma-joined `repr` of dict entries. -/
def pyValReprEntries : List (String × PyVal) → List Char
  | [] => []
  | [(k, v)] => [Char.ofNat 39] ++ k.data ++ [Char.ofNat 39] ++ [':', ' '] ++ pyValRepr v
  | (k, v) :: rest =>
    [Char.ofNat 39] ++ k.data ++ [Char.ofNat 39] ++ [':', ' '] ++ pyValRepr v ++
      [',', ' '] ++ pyValReprEntries rest

end

/-- Python `str` of a `PyVal` (`str` of a string is itself; `str` of a dict
is its `repr`). -/
def pyValStr : PyVal → List Char
  | PyVal.vStr s => s.data
  | v => pyValRepr v

/-- Dict lookup (`d.get(k)`). -/
def dictGet : List (String × PyVal) → String → Option PyVal
  | [], _ => none
  | (k2, v) :: rest, k => if k2 = k then some v else dictGet rest k

/-- Remove the first `.` (Python `s.replace(".", "", 1)`). -/
def removeFirstDot (s : List Char) : List Char :=
  s.takeWhile (fun c => c ≠ '.') ++ (s.dropWhile (fun c => c ≠ '.')).drop 1

/-- Python `s.endswith(suffix)`. -/
def pyEndswith (s suffix : List Char) : Bool :=
  s.drop (s.length - suffix.length) = suffix && suffix.length ≤ s.length

/-- `Decimal(value)` for the scalars reaching the dict branch. -/
def decimalOfVal : PyVal → Option PyDecimal
  | PyVal.vStr s => parsePyDecimal s.data
  | PyVal.vInt n => some ⟨n, 0⟩
  | _ => none

/-- `XRPWalletManager._format_amount`, following the source's branch order:
a string is stripped; an `XRP`-suffixed string with a one-dot numeric part
that is integral is treated as drops (divide by 10^6, quantize to 6
decimals) — otherwise it falls through; a plain digit string goes through
`drops_to_xrp`; any other string is echoed through `Decimal` when it
parses, else returned verbatim; an integer is treated as drops; a dict
renders its `value` (with the same drops normalization when the currency is
`XRP`) as `"<value> <currency>"`.  Amounts are nonnegative; float inputs do
not occur in the modelled flows. -/
def formatAmount : PyVal → List Char
  | PyVal.vNone => ['N', 'o', 'n', 'e']
  | PyVal.vStr s =>
    let clean := pyStrip s.data
    let afterXrp : Option (List Char) :=
      if pyEndswith (clean.map pyUpperChar) ['X', 'R', 'P'] then
        let numeric := pyStrip (clean.take (clean.length - 3))
        if pyIsDigit (removeFirstDot numeric) then
          match parsePyDecimal numeric with
          | some d =>
            if decIsIntegral d then some (decRender ⟨decIntVal d, -6⟩) else none
          | none => none
        else none
      else none
    match afterXrp with
    | some out => out
    | none =>
      if pyIsDigit clean then decRender (dropsToXrp clean)
      else
        match parsePyDecimal clean with
        | some d => decRender d
        | none => clean
  | PyVal.vInt n => decRender ⟨n, -6⟩
  | PyVal.vDict entries =>
    match dictGet entries "value" with
    | none => pyValRepr (PyVal.vDict entries)
    | some value =>
      let currency := (dictGet entries "currency").getD (PyVal.vStr "XRP")
      match decimalOfVal value with
      | none => pyValStr value
      | some d =>
        let currencyStr := pyValStr currency
        if currencyStr ≠ [] ∧ currencyStr.map pyUpperChar = ['X', 'R', 'P'] then
          decRender (quantE6 (if decIsIntegral d then ⟨decIntVal d, -6⟩ else d))
        else decRender d ++ [' '] ++ currencyStr

/-- `XRPWalletManager._format_fee`: `drops_to_xrp(str(fee))` quantized to 6
decimals, falling back to `str(fee)` when the conversion raises (non-digit
input). -/
def formatFee (fee : PyVal) : List Char :=
  let s := pyValStr fee
  if pyIsDigit s then decRender (quantE6 (dropsToXrp s)) else s

/-! ## Transaction history (`XRPWalletManager.get_transaction_history`)

Embedding of the primary (native RPC) path of the function for a response
the client reports as successful.  The source iterates the response's
transaction entries computing the tolerant per-entry normalization into
loop variables, but the single `transactions.append(...)` sits at the
loop's indentation level, so it executes once, after the loop, from the
final values of the loop variables; a response whose entry list is empty
leaves `tx_data` unbound (NameError), and a final entry without a `tx`
record leaves it `None` (AttributeError on `.get`) — both exceptions are
caught and routed to the mainnet-only fallback.  Each entry's `date` field
feeds a local-timezone rendering and is not modelled; `raw` carries the
entry verbatim. -/

/-- Whether a dict value is Python-`in (None, '')`. -/
def isNoneOrEmptyStr : PyVal → Bool
  | PyVal.vNone => true
  | PyVal.vStr s => s = ""
  | _ => false

/-- A `tx` record: a string-keyed dict. -/
abbrev TxData := List (String × PyVal)

/-- `XRPWalletManager._extract_value`: the first listed key present in the
dict with a value that is neither `None` nor the empty string. -/
def extractValue (data : TxData) : List String → Option PyVal
  | [] => none
  | k :: rest =>
    match dictGet data k with
    | some v => if isNoneOrEmptyStr v then extractValue data rest else some v
    | none => extractValue data rest

/-- One entry of a successful account-transactions response: its optional
`tx` record and its `validated` flag. -/
structure TxEntry where
  tx : Option TxData
  validated : Bool

/-- The loop variables holding one entry's tolerant normalization. -/
structure NormVals where
  accountValue : Option PyVal
  destinationValue : Option PyVal
  destTagVal : Option PyVal
  amountValue : Option PyVal
  seqValue : Option PyVal

/-- The `int(dest_tag_val)` attempt: convert when possible, keep the value
on exception. -/
def destTagToInt : PyVal → PyVal
  | PyVal.vInt n => PyVal.vInt n
  | PyVal.vStr s =>
    if pyIsDigit (pyStrip s.data) ∧ pyStrip s.data ≠ [] then PyVal.vInt (digitsVal (pyStrip s.data))
    else PyVal.vStr s
  | v => v

/-- The per-entry normalization computed inside the loop body. -/
def normalizeVals (td : TxData) : NormVals :=
  let destinationTag := extractValue td ["DestinationTag", "destination_tag"]
  ⟨extractValue td ["Account", "account", "from", "source"],
   extractValue td ["Destination", "destination", "to", "target"],
   destinationTag.map destTagToInt,
   extractValue td ["Amount", "amount"],
   extractValue td ["Sequence", "sequence"]⟩

/-- `int(seq_value) if str(seq_value).isdigit() else 0`. -/
def seqNat : Option PyVal → Nat
  | some (PyVal.vInt n) => n
  | some (PyVal.vStr s) => if pyIsDigit s.data then digitsVal s.data else 0
  | _ => 0

/-- The record appended to the result list (the `date` display field, a
local-timezone rendering, is outside the model). -/
structure HistoryRecord where
  hash : PyVal
  txType : Option PyVal
  account : Option PyVal
  destination : Option PyVal
  destinationTag : Option PyVal
  amount : List Char
  fee : List Char
  sequence : Nat
  validated : Bool
  raw : TxEntry

/-- Build the appended record from the last entry and the loop variables. -/
def buildRecord (e : TxEntry) (td : TxData) (v : NormVals) : HistoryRecord :=
  ⟨(dictGet td "hash").getD (PyVal.vStr ""),
   extractValue td ["TransactionType", "type"],
   v.accountValue,
   v.destinationValue,
   v.destTagVal,
   formatAmount (v.amountValue.getD PyVal.vNone),
   formatFee ((dictGet td "Fee").getD (PyVal.vStr "0")),
   seqNat v.seqValue,
   e.validated,
   e⟩

/-- Result of the primary-path history fetch.  `errorExn` is the
non-mainnet outcome of the exception handler (`[{'error': str(e)}]`);
`fallbackConsulted` is the mainnet outcome (the HTTP fallback providers are
queried). -/
inductive HistoryResult
  | records (rs : List HistoryRecord)
  | errorExn
  | fallbackConsulted

/-- The exception handler: fallback on mainnet, single-element error list
otherwise. -/
def historyExceptionPath (network : String) : HistoryResult :=
  if network = "mainnet" then HistoryResult.fallbackConsulted else HistoryResult.errorExn

/-- `get_transaction_history` on a successful primary response: the loop
assigns `tx_data` from every entry (`continue` skips the rest of the body
when it is falsy — absent or an empty dict) and the normalization variables
from entries with a truthy `tx` record; the misindented append then runs
once, from `tx_data` of the last entry and the variables of the last truthy
one.  An empty entry list leaves `tx_data` unbound (NameError); a final
entry without `tx` leaves it `None` (AttributeError on `.get`); no truthy
entry at all leaves the variables unbound (NameError) — each lands in the
exception handler. -/
def getTransactionHistory (network : String) (entries : List TxEntry) : HistoryResult :=
  let finalState := entries.foldl
    (fun (st : Option TxEntry × Option NormVals) e =>
      match e.tx with
      | none => (some e, st.2)
      | some td => if td.isEmpty then (some e, st.2) else (some e, some (normalizeVals td)))
    (none, none)
  match finalState with
  | (none, _) => historyExceptionPath network
  | (some e, vals) =>
    match e.tx with
    | none => historyExceptionPath network
    | some td =>
      match vals with
      | some v => HistoryResult.records [buildRecord e td v]
      | none => historyExceptionPath network

/-! ## Multisig submission gate (gui.py,
`submit_multisig_transaction_action` / `update_multisig_signing_table`) -/

/-- One collected signed package; `txBlob` is the resolved
`tx_blob` (directly on the entry or under `signed_transaction`). -/
structure SigEntry where
  txBlob : Option String
deriving DecidableEq

/-- The ephemeral multisig session: collected signatures keyed by signer
address (insertion-ordered dict), the signer-list snapshot with weights,
and the quorum. -/
structure MultisigSession where
  signatures : List (String × SigEntry)
  requiredSigners : List (String × Nat)
  quorum : Nat
deriving DecidableEq

/-- The collected weight shown by `update_multisig_signing_table`: the sum
of the weights of required signers whose address appears among the
signatures. -/
def collectedWeight (session : MultisigSession) : Nat :=
  (session.requiredSigners.map (fun p =>
    if (session.signatures.map Prod.fst).contains p.1 then p.2 else 0)).sum

/-- Outcome of `submit_multisig_transaction_action`: the wallet-selection
and session guards, the blocking "Not enough signatures collected yet"
validation message (no submission occurs), or the hand-off of the collected
signature values to `submit_multisig_transaction`. -/
inductive SubmitOutcome
  | selectWalletError
  | prepareFirst
  | notEnoughSignatures
  | submitted (sigs : List SigEntry)
deriving DecidableEq

/-- `submit_multisig_transaction_action`: the gate compares
`len(signatures)` — the number of collected signatures — against the
quorum. -/
def submitMultisigTransactionAction (hasActiveWallet : Bool)
    (session : Option MultisigSession) : SubmitOutcome :=
  if !hasActiveWallet then SubmitOutcome.selectWalletError
  else
    match session with
    | none => SubmitOutcome.prepareFirst
    | some s =>
      if s.signatures.length < s.quorum then SubmitOutcome.notEnoughSignatures
      else SubmitOutcome.submitted (s.signatures.map Prod.snd)

/-- First stage of `XRPWalletManager.submit_multisig_transaction`: extract
the transaction blobs and issue the ledger `combine` request (the
combination submission to the ledger endpoint follows). -/
inductive CombineStage
  | noBlobs
  | combineRequested (blobs : List String)
deriving DecidableEq

/-- Blob extraction and the combine hand-off. -/
def submitMultisigTransaction (sigs : List SigEntry) : CombineStage :=
  let blobs := sigs.filterMap (fun e => e.txBlob)
  if blobs = [] then CombineStage.noBlobs else CombineStage.combineRequested blobs

/-! ## The multi-wallet store state and `add_wallet` (gui.py,
`MultiWalletManager`) -/

/-- A persisted wallet entry (`WalletData`).  The `address` and `balance`
display fields, populated from the external Wallet object and ledger
queries, are outside the model; the claim-relevant identity of an entry is
its secret material, algorithm and network. -/
structure StoredWallet where
  name : String
  secret : List Char
  network : String
  secretType : SecretType
  publicKey : List Char
  algorithm : WalletAlgorithm
deriving DecidableEq

/-- A per-wallet ledger manager: its configured network and the secret info
injected by `use_wallet`. -/
structure ManagerModel where
  network : String
  info : SecretInfo
deriving DecidableEq

/-- The in-memory store: the wallet map, the secret cache, the manager map,
the active-wallet pointer, whether the manager was unlocked with a master
password, and the last persisted snapshot of the wallet map
(`save_wallets` re-encrypts the whole payload on every mutation). -/
structure StoreState where
  wallets : String → Option StoredWallet
  secretCache : String → Option SecretInfo
  walletManagers : String → Option ManagerModel
  activeWallet : Option String
  /-- `ensure_initialized`'s guard: `self.initialized` and a truthy
  `self.password`, collapsed into one flag. -/
  unlocked : Bool
  persistedSnapshot : Option (String → Option StoredWallet)

/-- Outcome of `add_wallet`: the `ensure_initialized` contract violation
(RuntimeError, raised before the `try`), the delegated seed/ed25519 parse
branches whose external derivations are outside the model, or a normal
return carrying the new state and the boolean result (failures are caught,
logged and returned as `False` with the state unchanged). -/
inductive AddWalletResult
  | notInitialized
  | delegated
  | done (st : StoreState) (ok : Bool)

/-- `add_wallet(name, secret, network)` (no cached `secret_info` supplied):
parse the secret, build a manager bound to the network, record the
`WalletData` entry, overwrite the three maps at `name`, persist, and return
`True`.  A parse failure is caught and returned as `False` before any map
is touched.  No duplicate-name check exists: an existing entry under
`name` is replaced. -/
def addWallet (st : StoreState) (name : String) (secret : List Char)
    (network : String) : AddWalletResult :=
  if !st.unlocked then AddWalletResult.notInitialized
  else
    match createWalletFromSecret secret none none with
    | ParseOutcome.ok info =>
      let wd : StoredWallet :=
        ⟨name, info.secret, network, info.secretType, info.publicKey, info.algorithm⟩
      let newWallets := fun n => if n = name then some wd else st.wallets n
      AddWalletResult.done
        ⟨newWallets,
         fun n => if n = name then some info else st.secretCache n,
         fun n => if n = name then some ⟨network, info⟩ else st.walletManagers n,
         st.activeWallet,
         st.unlocked,
         some newWallets⟩
        true
    | ParseOutcome.seedDelegated _ => AddWalletResult.delegated
    | ParseOutcome.edDelegated _ => AddWalletResult.delegated
    | ParseOutcome.err _ => AddWalletResult.done st false
    | ParseOutcome.exn => AddWalletResult.done st false

/-! ## Legacy wallet decryption (`decrypt_python_wallet.decrypt_wallet_file`)

The envelope carries hex-encoded salt/nonce/ciphertext and a hex MAC
string; hex encoding is injective on bytes, so fields are modelled as the
decoded bytes and the MAC string comparison as byte-string equality (the
writer emits canonical lowercase hex).  The AES-256 block cipher comes from
the `cryptography` library; the embedding is parameterized by the block
encryption function `aesEnc` (CTR mode uses only the forward direction),
and results carry the number of AES block invocations performed, so "no AES
operation happens before the MAC check" is a provable statement. -/

/-- The legacy envelope: salt, nonce, ciphertext, MAC (decoded bytes). -/
structure LegacyEnvelope where
  salt : Bytes
  nonce : Bytes
  ciphertext : Bytes
  mac : Bytes

/-- The CTR keystream: AES encryptions of the big-endian counter blocks
starting from the nonce value, one per 16-byte block. -/
def ctrKeystream (aesEnc : Bytes → Bytes → Bytes) (key nonce : Bytes) (nblocks : Nat) : Bytes :=
  ((List.range nblocks).map
    (fun i => aesEnc key (beBytes 16 ((beVal nonce + i) % 2 ^ 128)))).join

/-- AES-CTR encryption/decryption: XOR against the keystream (identical in
both directions). -/
def aesCtrXor (aesEnc : Bytes → Bytes → Bytes) (key nonce data : Bytes) : Bytes :=
  zipXor data (ctrKeystream aesEnc key nonce ((data.length + 15) / 16))

/-- `decrypt_wallet_file` past envelope parsing: derive the 32-byte key by
PBKDF2-HMAC-SHA256 over 390000 iterations, recompute
`HMAC-SHA256(key, salt ++ nonce ++ ciphertext)`, and compare with the
stored MAC.  On mismatch: `None`, zero AES invocations.  On match: derive
the session key `HMAC-SHA256(key, nonce)` and AES-CTR-decrypt.  The second
component counts AES block invocations. -/
def decryptWalletFile (aesEnc : Bytes → Bytes → Bytes) (env : LegacyEnvelope)
    (password : Bytes) : Option Bytes × Nat :=
  let key := pbkdf2Sha256 password env.salt 390000 32
  let calculated := hmacSha256 key (env.salt ++ env.nonce ++ env.ciphertext)
  if calculated ≠ env.mac then (none, 0)
  else
    (some (aesCtrXor aesEnc (hmacSha256 key env.nonce) env.nonce env.ciphertext),
     (env.ciphertext.length + 15) / 16)

/-- Modelled from the spec: the legacy "Python wallet" writer that produced
these envelopes is not under src/ (only the §4.6 decryptor is).  Per
§4.6/§8.10 it derives the same PBKDF2 key, encrypts the plaintext JSON with
AES-256-CTR under the session key `HMAC-SHA256(key, nonce)` with `nonce` as
the initial counter block, and stores
`mac = HMAC-SHA256(key, salt ++ nonce ++ ciphertext)`. -/
def encryptLegacyWallet (aesEnc : Bytes → Bytes → Bytes)
    (password salt nonce plaintext : Bytes) : LegacyEnvelope :=
  let key := pbkdf2Sha256 password salt 390000 32
  let ct := aesCtrXor aesEnc (hmacSha256 key nonce) nonce plaintext
  ⟨salt, nonce, ct, hmacSha256 key (salt ++ nonce ++ ct)⟩

/-- Flip bit `k` of byte `i` of a byte string. -/
def flipBit (b : Bytes) (i k : Nat) : Bytes := b.set i (b.getD i 0 ^^^ 2 ^ k)

/-! ## Concrete inputs and auxiliary definitions for the claim theorems -/

/-- Number of records in a history result. -/
def HistoryResult.recordCount : HistoryResult → Nat
  | HistoryResult.records rs => rs.length
  | _ => 0

/-- A first response entry: canonical uppercase field spellings. -/
def txA : TxData :=
  [("hash", PyVal.vStr "H1"), ("TransactionType", PyVal.vStr "Payment"),
   ("Account", PyVal.vStr "rAlice"), ("Destination", PyVal.vStr "rCarol"),
   ("Amount", PyVal.vStr "1000000"), ("Sequence", PyVal.vInt 5),
   ("Fee", PyVal.vStr "10")]

/-- A second response entry: alternate lowercase field spellings. -/
def txB : TxData :=
  [("hash", PyVal.vStr "H2"), ("type", PyVal.vStr "Payment"),
   ("account", PyVal.vStr "rBob"), ("destination", PyVal.vStr "rDave"),
   ("destination_tag", PyVal.vStr "7"), ("amount", PyVal.vStr "2000000"),
   ("sequence", PyVal.vInt 6)]

/-- The `SecretInfo` carried by a successful parse (a default on the other
outcomes). -/
def ParseOutcome.infoD : ParseOutcome → SecretInfo
  | ParseOutcome.ok info => info
  | _ => ⟨[], SecretType.seed, WalletAlgorithm.ed25519, [], []⟩

/-- The secp256k1 scalar a 64-hex secret parses to (stripped, uppercased,
read base 16). -/
def secpScalar (s : List Char) : Nat :=
  hexVal (((pyStrip s).map pyUpperChar).map pyUpperChar)

/-- The store state produced by a successful `add_wallet`: the three maps
overwritten at `name`, everything else untouched, and the new wallet map
persisted. -/
def addedState (st : StoreState) (name : String) (network : String)
    (info : SecretInfo) : StoreState :=
  let wd : StoredWallet :=
    ⟨name, info.secret, network, info.secretType, info.publicKey, info.algorithm⟩
  let newWallets := fun n => if n = name then some wd else st.wallets n
  ⟨newWallets,
   fun n => if n = name then some info else st.secretCache n,
   fun n => if n = name then some ⟨network, info⟩ else st.walletManagers n,
   st.activeWallet,
   st.unlocked,
   some newWallets⟩

/-- The `SecretInfo` derived from the 64-hex secret `0…01`. -/
def infoOne : SecretInfo :=
  ⟨List.replicate 63 '0' ++ ['1'], SecretType.privateKey, WalletAlgorithm.secp256k1,
   encodeCompressedHex secpG, List.replicate 63 '0' ++ ['1']⟩

/-- A pre-existing wallet entry named "alice". -/
def oldAlice : StoredWallet :=
  ⟨"alice", ['x'], "testnet", SecretType.seed, [], WalletAlgorithm.ed25519⟩

/-- An initialized store already holding "alice". -/
def storeWithAlice : StoreState :=
  ⟨fun n => if n = "alice" then some oldAlice else none,
   fun _ => none, fun _ => none, none, true, none⟩

/-- A stand-in AES block function for the witness: constant 16-byte
blocks. -/
def aes0 : Bytes → Bytes → Bytes := fun _ _ => List.replicate 16 0

/-! ## Theorems: supporting lemmas, then the claim theorems with their
witnesses and counterexamples -/

theorem zipXor_length (a b : Bytes) : (zipXor a b).length = min a.length b.length := by
  simp [zipXor]

/-- XOR against the same (long enough) keystream twice is the identity. -/
theorem zipXor_zipXor (a : Bytes) :
    ∀ b : Bytes, a.length ≤ b.length → zipXor (zipXor a b) b = a := by
  induction a with
  | nil => intro b _; simp [zipXor]
  | cons x xs ih =>
    intro b hb
    cases b with
    | nil => simp at hb
    | cons y ys =>
      simp only [zipXor, List.zipWith_cons_cons, List.length_cons] at *
      refine congrArg₂ List.cons ?_ (ih ys (Nat.succ_le_succ_iff.mp hb))
      rw [Nat.xor_assoc, Nat.xor_self, Nat.xor_zero]

/-- XOR keeps bytes in range. -/
theorem zipXor_lt : ∀ a b : Bytes, (∀ x ∈ a, x < 256) → (∀ x ∈ b, x < 256) →
    ∀ x ∈ zipXor a b, x < 256 := by
  intro a
  induction a with
  | nil => intro b _ _ x hx; simp [zipXor] at hx
  | cons y ys ih =>
    intro b ha hb x hx
    cases b with
    | nil => simp [zipXor] at hx
    | cons z zs =>
      simp only [zipXor, List.zipWith_cons_cons, List.mem_cons] at hx
      rcases hx with rfl | hx
      · exact Nat.xor_lt_two_pow (n := 8) (ha _ (by simp)) (hb _ (by simp))
      · exact ih zs (fun u hu => ha u (by simp [hu])) (fun u hu => hb u (by simp [hu])) x hx

theorem beBytes_length (w v : Nat) : (beBytes w v).length = w := by
  induction w generalizing v with
  | zero => rfl
  | succ w ih => simp [beBytes, ih]

theorem beBytes_lt (w v : Nat) : ∀ x ∈ beBytes w v, x < 256 := by
  induction w generalizing v with
  | zero => simp [beBytes]
  | succ w ih =>
    intro x hx
    rcases List.mem_append.mp hx with h | h
    · exact ih _ _ h
    · simp only [List.mem_singleton] at h
      omega

theorem sha256_length (msg : Bytes) : (sha256 msg).length = 32 := by
  simp [sha256, beBytes_length]

theorem sha256_lt (msg : Bytes) : ∀ x ∈ sha256 msg, x < 256 := by
  intro x hx
  simp only [sha256, List.mem_append] at hx
  rcases hx with ((((((h | h) | h) | h) | h) | h) | h) | h <;>
    exact beBytes_lt _ _ _ h

theorem hmacSha256_length (key msg : Bytes) : (hmacSha256 key msg).length = 32 :=
  sha256_length _

theorem hmacSha256_lt (key msg : Bytes) : ∀ x ∈ hmacSha256 key msg, x < 256 :=
  sha256_lt _

theorem pbkdf2Iter_length (pw : Bytes) (n : Nat) :
    ∀ u t : Bytes, t.length = 32 → (pbkdf2Iter pw n u t).length = 32 := by
  induction n with
  | zero => intro u t ht; exact ht
  | succ n ih =>
    intro u t ht
    refine ih _ _ ?_
    rw [zipXor_length, ht, hmacSha256_length]
    exact Nat.min_self 32

theorem pbkdf2Block_length (pw salt : Bytes) (iters i : Nat) :
    (pbkdf2Block pw salt iters i).length = 32 :=
  pbkdf2Iter_length pw _ _ _ (hmacSha256_length _ _)

theorem pbkdf2Sha256_length (pw salt : Bytes) (iters dklen : Nat) :
    (pbkdf2Sha256 pw salt iters dklen).length = dklen := by
  rw [pbkdf2Sha256, List.length_take, List.length_join]
  refine Nat.min_eq_left ?_
  have hmap : ((List.range ((dklen + 31) / 32)).map
      (fun i => pbkdf2Block pw salt iters (i + 1))).map List.length =
      (List.range ((dklen + 31) / 32)).map (fun _ => 32) := by
    rw [List.map_map]
    exact List.map_congr_left (fun i _ => pbkdf2Block_length pw salt iters (i + 1))
  rw [hmap]
  have hsum : (List.map (fun _ => (32 : Nat)) (List.range ((dklen + 31) / 32))).sum =
      ((dklen + 31) / 32) * 32 := by simp [List.map_const']
  rw [hsum]
  omega

theorem pbkdf2Iter_lt (pw : Bytes) (n : Nat) :
    ∀ u t : Bytes, (∀ x ∈ t, x < 256) → ∀ x ∈ pbkdf2Iter pw n u t, x < 256 := by
  induction n with
  | zero => intro u t ht; exact ht
  | succ n ih =>
    intro u t ht
    exact ih _ _ (zipXor_lt _ _ ht (hmacSha256_lt _ _))

theorem pbkdf2Sha256_lt (pw salt : Bytes) (iters dklen : Nat) :
    ∀ x ∈ pbkdf2Sha256 pw salt iters dklen, x < 256 := by
  intro x hx
  have hx2 := List.mem_of_mem_take hx
  rw [List.mem_join] at hx2
  obtain ⟨l, hl, hxl⟩ := hx2
  rw [List.mem_map] at hl
  obtain ⟨i, _, rfl⟩ := hl
  exact pbkdf2Iter_lt pw _ _ _ (hmacSha256_lt _ _) x hxl

theorem streamCipherFrom_nil (key nonce : Bytes) (ctr : Nat) :
    streamCipherFrom key nonce ctr [] = [] := by
  rw [streamCipherFrom]
  simp

/-- The stream cipher is an involution: the same call decrypts what it
encrypted, because XOR against the identical keystream cancels. -/
theorem streamCipherFrom_involution :
    ∀ (n : Nat) (data key nonce : Bytes) (ctr : Nat), data.length ≤ n →
      streamCipherFrom key nonce ctr (streamCipherFrom key nonce ctr data) = data := by
  intro n
  induction n with
  | zero =>
    intro data key nonce ctr hn
    have : data = [] := List.eq_nil_of_length_eq_zero (Nat.le_zero.mp hn)
    subst this
    rw [streamCipherFrom_nil, streamCipherFrom_nil]
  | succ n ih =>
    intro data key nonce ctr hn
    by_cases hd : data = []
    · subst hd; rw [streamCipherFrom_nil, streamCipherFrom_nil]
    · have hpos : 0 < data.length := List.length_pos.mpr hd
      have hks : (hmacSha256 key (nonce ++ beBytes 8 ctr)).length = 32 :=
        hmacSha256_length _ _
      have hinner : streamCipherFrom key nonce ctr data =
          zipXor (data.take 32) (hmacSha256 key (nonce ++ beBytes 8 ctr)) ++
            streamCipherFrom key nonce (ctr + 1) (data.drop 32) := by
        rw [streamCipherFrom, dif_neg hd]
      by_cases hlen : data.length ≤ 32
      · -- one chunk: the recursive tail is empty on both passes
        have htake : data.take 32 = data := List.take_of_length_le hlen
        have hdrop : data.drop 32 = [] := List.drop_eq_nil_of_le hlen
        rw [hinner, htake, hdrop, streamCipherFrom_nil, List.append_nil]
        have hchunk2 : (zipXor data (hmacSha256 key (nonce ++ beBytes 8 ctr))).length ≤ 32 := by
          rw [zipXor_length, hks]; omega
        have hne2 : zipXor data (hmacSha256 key (nonce ++ beBytes 8 ctr)) ≠ [] := by
          intro hcon
          have hlc := congrArg List.length hcon
          rw [zipXor_length, hks] at hlc
          simp only [List.length_nil] at hlc
          omega
        rw [streamCipherFrom, dif_neg hne2]
        rw [List.take_of_length_le hchunk2, List.drop_eq_nil_of_le hchunk2,
          streamCipherFrom_nil, List.append_nil]
        exact zipXor_zipXor data _ (by rw [hks]; omega)
      · -- full 32-byte chunk followed by a shorter remainder
        push_neg at hlen
        have hchunk32 : (zipXor (data.take 32)
            (hmacSha256 key (nonce ++ beBytes 8 ctr))).length = 32 := by
          rw [zipXor_length, hks, List.length_take]; omega
        have hne2 : zipXor (data.take 32) (hmacSha256 key (nonce ++ beBytes 8 ctr)) ++
            streamCipherFrom key nonce (ctr + 1) (data.drop 32) ≠ [] := by
          intro hcon
          rcases List.append_eq_nil.mp hcon with ⟨h1, _⟩
          have hlc := congrArg List.length h1
          rw [hchunk32] at hlc
          simp at hlc
        rw [hinner, streamCipherFrom, dif_neg hne2]
        rw [List.take_left' hchunk32, List.drop_left' hchunk32]
        rw [zipXor_zipXor _ _ (by rw [hks, List.length_take]; omega)]
        rw [ih (data.drop 32) key nonce (ctr + 1) (by simp only [List.length_drop]; omega)]
        exact List.take_append_drop 32 data

theorem streamCipher_involution (key nonce data : Bytes) :
    streamCipher key nonce (streamCipher key nonce data) = data :=
  streamCipherFrom_involution data.length data key nonce 0 le_rfl

theorem charOfNat_toNat (m : Nat) (h : m < 128) : (Char.ofNat m).toNat = m := by
  unfold Char.ofNat
  rw [dif_pos (by constructor <;> omega : m.isValidChar)]
  simp [Char.ofNatAux, Char.toNat, UInt32.toNat, BitVec.toNat_ofNatLt]

theorem toHexU_length (w v : Nat) : (toHexU w v).length = w := by
  induction w generalizing v with
  | zero => rfl
  | succ w ih => simp [toHexU, ih]

theorem hexDigitU_isUpperHex (n : Nat) (h : n < 16) :
    isUpperHexChar (hexDigitU n) = true := by
  rw [hexDigitU]
  by_cases h10 : n < 10
  · rw [if_pos h10, isUpperHexChar, charOfNat_toNat _ (by omega)]
    simp only [Bool.or_eq_true, Bool.and_eq_true, decide_eq_true_eq]
    omega
  · rw [if_neg h10, isUpperHexChar, charOfNat_toNat _ (by omega)]
    simp only [Bool.or_eq_true, Bool.and_eq_true, decide_eq_true_eq]
    omega

theorem toHexU_all_upperHex (w v : Nat) : ∀ c ∈ toHexU w v, isUpperHexChar c = true := by
  induction w generalizing v with
  | zero => simp [toHexU]
  | succ w ih =>
    intro c hc
    rcases List.mem_append.mp hc with h | h
    · exact ih _ _ h
    · simp only [List.mem_singleton] at h
      subst h
      exact hexDigitU_isUpperHex _ (Nat.mod_lt _ (by omega))

theorem pyUpperChar_of_hex (c : Char) (h : isPyHexDigit c = true) :
    isUpperHexChar (pyUpperChar c) = true := by
  rw [isPyHexDigit] at h
  simp only [Bool.or_eq_true, Bool.and_eq_true, decide_eq_true_eq] at h
  rw [pyUpperChar]
  by_cases hl : 97 ≤ c.toNat ∧ c.toNat ≤ 122
  · rw [if_pos hl, isUpperHexChar, charOfNat_toNat _ (by omega)]
    simp only [Bool.or_eq_true, Bool.and_eq_true, decide_eq_true_eq]
    omega
  · rw [if_neg hl, isUpperHexChar]
    simp only [Bool.or_eq_true, Bool.and_eq_true, decide_eq_true_eq]
    omega

theorem pyWhitespace_of_hex (c : Char) (h : isPyHexDigit c = true) :
    pyWhitespace c = false := by
  rw [isPyHexDigit] at h
  simp only [Bool.or_eq_true, Bool.and_eq_true, decide_eq_true_eq] at h
  rw [pyWhitespace]
  simp only [Bool.or_eq_false_iff, beq_eq_false_iff_ne, ne_eq]
  omega

theorem dropWhile_eq_self_of_all_false {p : Char → Bool} :
    ∀ s : List Char, (∀ c ∈ s, p c = false) → s.dropWhile p = s := by
  intro s h
  cases s with
  | nil => rfl
  | cons c cs => rw [List.dropWhile_cons, h c (by simp)]; simp

theorem pyStrip_eq_self (s : List Char) (h : ∀ c ∈ s, pyWhitespace c = false) :
    pyStrip s = s := by
  rw [pyStrip, dropWhile_eq_self_of_all_false s h,
    dropWhile_eq_self_of_all_false s.reverse (fun c hc => h c (List.mem_reverse.mp hc)),
    List.reverse_reverse]

/-- C7: `_format_amount` on the plain numeric string "1000000" (drops)
renders "1.000000" — the drops value divided by 1,000,000 displayed with 6
decimal places (the drops branch returns `drops_to_xrp`'s `Decimal`, whose
string rendering this is) — and on the dict `{"value": "5", "currency":
"USD"}` renders "5 USD". -/
theorem C7_format_amount :
    formatAmount (PyVal.vStr "1000000") = ['1', '.', '0', '0', '0', '0', '0', '0'] ∧
    formatAmount (PyVal.vDict [("value", PyVal.vStr "5"), ("currency", PyVal.vStr "USD")]) =
      ['5', ' ', 'U', 'S', 'D'] :=
  ⟨by decide, by decide⟩

/-- C9: for non-negative `signer_count`, `estimate_signer_list_cost`
returns `additional_reserve = reserve_increment * signer_count` and
`total_reserve = reserve_base + additional_reserve`; with base 1,
increment 0.2 and 3 signers the results are 0.6 and 1.6. -/
theorem C9_estimate_signer_list_cost (b i : ℚ) (sc : ℤ) (h : 0 ≤ sc) :
    (estimateSignerListCost b i sc).additionalReserve = i * (sc : ℚ) ∧
    (estimateSignerListCost b i sc).totalReserve = b + i * (sc : ℚ) ∧
    (estimateSignerListCost 1 (0.2 : ℚ) 3).additionalReserve = (0.6 : ℚ) ∧
    (estimateSignerListCost 1 (0.2 : ℚ) 3).totalReserve = (1.6 : ℚ) := by
  refine ⟨?_, ?_, by norm_num [estimateSignerListCost], by norm_num [estimateSignerListCost]⟩
  · simp [estimateSignerListCost, max_eq_left h]
  · simp [estimateSignerListCost, max_eq_left h]

/-- Witness for C9 at `base = 1`, `increment = 0.2`, `signer_count = 3`. -/
theorem C9_witness :
    (0 : ℤ) ≤ 3 ∧
    (estimateSignerListCost 1 (0.2 : ℚ) 3).additionalReserve = (0.2 : ℚ) * ((3 : ℤ) : ℚ) ∧
    (estimateSignerListCost 1 (0.2 : ℚ) 3).totalReserve = 1 + (0.2 : ℚ) * ((3 : ℤ) : ℚ) :=
  ⟨by decide, (C9_estimate_signer_list_cost 1 (0.2 : ℚ) 3 (by decide)).1,
   (C9_estimate_signer_list_cost 1 (0.2 : ℚ) 3 (by decide)).2.1⟩

/-- C6 as stated is false: for a format-valid address (leading `r`, length
25), a ledger query that raises makes `validate_address` return `False`,
though the claim requires the verdict `True` for a format-valid address
regardless of the query's outcome. -/
theorem C6_counterexample :
    addressFormatValid ('r' :: List.replicate 24 'a') = true ∧
    validateAddress ('r' :: List.replicate 24 'a') QueryOutcome.raises = false :=
  ⟨by decide, by decide⟩

/-- C6 amended: `validate_address` returns `True` iff the format check
passes and the attempted ledger query does not raise — any completed query
(account found, not found, or a ledger error response) leaves the verdict
equal to format validity, while a raised exception (network failure) is
caught and yields `False` even for a format-valid address; a format-invalid
address is `False` regardless. -/
theorem C6_validate_address (address : List Char) (q : QueryOutcome) :
    validateAddress address QueryOutcome.completes = addressFormatValid address ∧
    validateAddress address q = (addressFormatValid address &&
      decide (q = QueryOutcome.completes)) := by
  have hmain : validateAddress address QueryOutcome.completes = addressFormatValid address := by
    by_cases h1 : address.take 1 = ['r']
    · by_cases h2 : address.length < 25 ∨ 34 < address.length
      · rw [validateAddress, if_neg (not_not_intro h1), if_pos h2, addressFormatValid]
        rcases h2 with h2 | h2
        · have h3 : ¬(25 ≤ address.length) := by omega
          simp [h3]
        · have h3 : ¬(address.length ≤ 34) := by omega
          simp [h3]
      · push_neg at h2
        rw [validateAddress, if_neg (not_not_intro h1),
          if_neg (by push_neg; exact h2), addressFormatValid]
        simp [h1, Nat.le_of_not_lt (by omega : ¬(address.length < 25)), h2.2]
    · rw [validateAddress, if_pos h1, addressFormatValid]
      simp [h1]
  refine ⟨hmain, ?_⟩
  cases q with
  | completes => simpa using hmain
  | raises =>
    have hr : validateAddress address QueryOutcome.raises = false := by
      rw [validateAddress]
      split
      · rfl
      · split
        · rfl
        · rfl
    rw [hr]
    simp

/-- C5 as stated is false: the single-space input (whitespace-only, hence
empty after trimming) is truthy, passes the falsy check, and falls through
to the final rejection — the error raised is "Unrecognized secret format.
Provide a valid XRP seed or private key.", not "Secret value is empty". -/
theorem C5_counterexample :
    createWalletFromSecret [' '] none none = ParseOutcome.err ParseErr.unrecognizedFormat ∧
    ParseErr.unrecognizedFormat ≠ ParseErr.emptySecret :=
  ⟨by decide, by decide⟩

/-- C5 amended: only the literally empty input fails with "Secret value is
empty" (the falsy check runs on the untrimmed input); any nonempty input
that trims to empty fails with the "Unrecognized secret format" rejection
instead.  In both cases parsing fails with a ValueError and no key
derivation branch is reached. -/
theorem C5_empty_secret (s : List Char) :
    (s = [] → createWalletFromSecret s none none = ParseOutcome.err ParseErr.emptySecret) ∧
    (s ≠ [] → pyStrip s = [] →
      createWalletFromSecret s none none = ParseOutcome.err ParseErr.unrecognizedFormat) := by
  constructor
  · intro h
    subst h
    rfl
  · intro hne hstrip
    rw [createWalletFromSecret, if_neg hne]
    simp only [hstrip]
    decide

/-- Witness for C5: the empty string and the single space. -/
theorem C5_witness :
    createWalletFromSecret [] none none = ParseOutcome.err ParseErr.emptySecret ∧
    createWalletFromSecret [' '] none none = ParseOutcome.err ParseErr.unrecognizedFormat :=
  ⟨(C5_empty_secret []).1 rfl,
   (C5_empty_secret [' ']).2 (by decide) (by decide)⟩

/-- C3 as stated is false: with a signer list holding the single signer A
of weight 2 and quorum 2, collecting A's signature alone reaches the
quorum weight (2 ≥ 2), yet submission is rejected — the gate compares the
number of collected signatures (1) against the quorum, not the summed
weight. -/
theorem C3_counterexample :
    collectedWeight ⟨[("A", ⟨some "blobA"⟩)], [("A", 2)], 2⟩ = 2 ∧
    submitMultisigTransactionAction true (some ⟨[("A", ⟨some "blobA"⟩)], [("A", 2)], 2⟩) =
      SubmitOutcome.notEnoughSignatures :=
  ⟨by decide, by decide⟩

/-- C3 amended: the submission gate compares the number of collected
signatures against the quorum (signer weights appear only in the displayed
progress table): fewer signatures than the quorum yields the blocking "Not
enough signatures collected yet" message and no submission occurs; at or
above the quorum the collected signature packages are handed to
`submit_multisig_transaction`, which proceeds to blob combination.  With
signers of weight 1 the count equals the collected weight, so the quorum-2
A/B scenario behaves as the claim describes. -/
theorem C3_submission_gate (s : MultisigSession) :
    (s.signatures.length < s.quorum →
      submitMultisigTransactionAction true (some s) = SubmitOutcome.notEnoughSignatures) ∧
    (s.quorum ≤ s.signatures.length →
      submitMultisigTransactionAction true (some s) =
        SubmitOutcome.submitted (s.signatures.map Prod.snd)) := by
  constructor
  · intro h
    simp [submitMultisigTransactionAction, h]
  · intro h
    simp [submitMultisigTransactionAction, Nat.not_lt.mpr h]

/-- Witness for C3: quorum 2 with signers A and B of weight 1 each —
A's signature alone is rejected; with both signatures the packages go to
combination, which issues the combine request for the two blobs. -/
theorem C3_witness :
    submitMultisigTransactionAction true
      (some ⟨[("A", ⟨some "blobA"⟩)], [("A", 1), ("B", 1)], 2⟩) =
      SubmitOutcome.notEnoughSignatures ∧
    submitMultisigTransactionAction true
      (some ⟨[("A", ⟨some "blobA"⟩), ("B", ⟨some "blobB"⟩)], [("A", 1), ("B", 1)], 2⟩) =
      SubmitOutcome.submitted
        ((([("A", (⟨some "blobA"⟩ : SigEntry)), ("B", ⟨some "blobB"⟩)]).map Prod.snd)) ∧
    submitMultisigTransaction [⟨some "blobA"⟩, ⟨some "blobB"⟩] =
      CombineStage.combineRequested ["blobA", "blobB"] :=
  ⟨(C3_submission_gate ⟨[("A", ⟨some "blobA"⟩)], [("A", 1), ("B", 1)], 2⟩).1 (by decide),
   (C3_submission_gate ⟨[("A", ⟨some "blobA"⟩), ("B", ⟨some "blobB"⟩)],
      [("A", 1), ("B", 1)], 2⟩).2 (by decide),
   by decide⟩

/-- C2: the code violates the claim.  On a successful response with two
entries that each carry a `tx` record, `get_transaction_history` returns a
single record — built from the last entry's loop variables by the
`transactions.append` sitting outside the loop — instead of one record per
entry.  The surviving record does read its own entry's fields tolerantly
(lowercase spellings, tag conversion, drops formatting), confirming the
intended per-entry normalization computed by the loop body. -/
theorem C2_code_bug :
    getTransactionHistory "testnet" [⟨some txA, true⟩, ⟨some txB, false⟩] =
      HistoryResult.records [buildRecord ⟨some txB, false⟩ txB (normalizeVals txB)] ∧
    (getTransactionHistory "testnet" [⟨some txA, true⟩, ⟨some txB, false⟩]).recordCount = 1 ∧
    (normalizeVals txB).accountValue = some (PyVal.vStr "rBob") ∧
    (normalizeVals txB).destinationValue = some (PyVal.vStr "rDave") ∧
    (normalizeVals txB).destTagVal = some (PyVal.vInt 7) ∧
    (buildRecord ⟨some txB, false⟩ txB (normalizeVals txB)).amount =
      ['2', '.', '0', '0', '0', '0', '0', '0'] ∧
    (buildRecord ⟨some txB, false⟩ txB (normalizeVals txB)).sequence = 6 :=
  ⟨rfl, rfl, rfl, rfl, rfl, by decide, by decide⟩

theorem isPyHexDigit_of_upper (c : Char) (h : isUpperHexChar c = true) :
    isPyHexDigit c = true := by
  rw [isUpperHexChar] at h
  rw [isPyHexDigit]
  simp only [Bool.or_eq_true, Bool.and_eq_true, decide_eq_true_eq] at *
  omega

theorem encodeCompressedHex_length (pt : Fp × Fp) : (encodeCompressedHex pt).length = 66 := by
  by_cases h : pt.2.val % 2 = 0 <;> simp [encodeCompressedHex, h, toHexU_length]

theorem encodeCompressedHex_take2 (pt : Fp × Fp) :
    (encodeCompressedHex pt).take 2 = ['0', '2'] ∨
    (encodeCompressedHex pt).take 2 = ['0', '3'] := by
  by_cases h : pt.2.val % 2 = 0
  · left
    simp [encodeCompressedHex, h]
  · right
    simp [encodeCompressedHex, h]

theorem encodeCompressedHex_hex (pt : Fp × Fp) :
    ∀ c ∈ encodeCompressedHex pt, isPyHexDigit c = true := by
  intro c hc
  rw [encodeCompressedHex] at hc
  rcases List.mem_append.mp hc with h | h
  · by_cases hp : pt.2.val % 2 = 0
    · rw [if_pos hp] at h
      have h2 : c = '0' ∨ c = '2' := by simpa using h
      rcases h2 with rfl | rfl
      · decide
      · decide
    · rw [if_neg hp] at h
      have h2 : c = '0' ∨ c = '3' := by simpa using h
      rcases h2 with rfl | rfl
      · decide
      · decide
  · exact isPyHexDigit_of_upper c (toHexU_all_upperHex 64 _ c h)

/-- C4 amended: a 64-character hexadecimal secret (no algorithm hint)
takes the secp256k1 raw-key branch; whenever the parsed scalar times the
generator is an affine point (every scalar except multiples of the group
order, i.e. except 0 and the order itself in the 64-hex range), parsing
succeeds with `secret_type = private_key`, `algorithm = secp256k1`, and a
public key of exactly 66 hexadecimal characters beginning `02` or `03`
(the compressed encoding). -/
theorem C4_parse_hex64 (s : List Char) (hlen : s.length = 64)
    (hhex : ∀ c ∈ s, isPyHexDigit c = true)
    (pt : Fp × Fp) (hpt : ecMul (secpScalar s) secpG = some pt) :
    (createWalletFromSecret s none none).isOk = true ∧
    (createWalletFromSecret s none none).infoD.secretType = SecretType.privateKey ∧
    (createWalletFromSecret s none none).infoD.algorithm = WalletAlgorithm.secp256k1 ∧
    (createWalletFromSecret s none none).infoD.publicKey.length = 66 ∧
    ((createWalletFromSecret s none none).infoD.publicKey.take 2 = ['0', '2'] ∨
      (createWalletFromSecret s none none).infoD.publicKey.take 2 = ['0', '3']) ∧
    ∀ c ∈ (createWalletFromSecret s none none).infoD.publicKey, isPyHexDigit c = true := by
  have hne : s ≠ [] := by
    intro h
    rw [h] at hlen
    simp at hlen
  have hstrip : pyStrip s = s :=
    pyStrip_eq_self s (fun c hc => pyWhitespace_of_hex c (hhex c hc))
  have hs1 : ¬(s.take 1 = ['s']) := by
    cases s with
    | nil => simp at hlen
    | cons c cs =>
      intro h
      simp only [List.take_succ_cons, List.take_zero] at h
      have hc : c = 's' := by simpa using h
      subst hc
      exact absurd (hhex 's' (by simp)) (by decide)
  have hlen2 : (s.map pyUpperChar).length = 64 := by simp [hlen]
  have hne2 : s.map pyUpperChar ≠ [] := by
    intro h
    rw [h] at hlen2
    simp at hlen2
  have hhexpat : hexPatternMatch (s.map pyUpperChar) = true := by
    rw [hexPatternMatch, Bool.and_eq_true]
    refine ⟨by simp [hne2], ?_⟩
    rw [List.all_eq_true]
    intro c hc
    obtain ⟨c0, hc0, rfl⟩ := List.mem_map.mp hc
    exact pyUpperChar_of_hex c0 (hhex c0 hc0)
  have hED : ¬((s.map pyUpperChar).take 2 = ['E', 'D'] ∧ (s.map pyUpperChar).length = 66 ∧
      hexPatternMatch ((s.map pyUpperChar).drop 2) = true) := by
    intro h
    rw [hlen2] at h
    omega
  have hderive : derivePublicKeySecp256k1 (s.map pyUpperChar) =
      some (encodeCompressedHex pt) := by
    rw [derivePublicKeySecp256k1]
    have hscal : hexVal ((s.map pyUpperChar).map pyUpperChar) = secpScalar s := by
      rw [secpScalar, hstrip]
    rw [hscal, hpt]
  have hres : createWalletFromSecret s none none = ParseOutcome.ok
      ⟨s.map pyUpperChar, SecretType.privateKey, WalletAlgorithm.secp256k1,
       encodeCompressedHex pt, s.map pyUpperChar⟩ := by
    rw [createWalletFromSecret, if_neg hne]
    simp only [hstrip]
    rw [if_neg hs1, if_neg hED, if_pos ⟨hhexpat, hlen2⟩]
    rw [if_neg (by simp : ¬((Option.getD (none : Option (List Char)) []).map pyLowerChar =
      ['e', 'd', '2', '5', '5', '1', '9']))]
    rw [hderive]
  rw [hres]
  exact ⟨rfl, rfl, rfl, encodeCompressedHex_length pt, encodeCompressedHex_take2 pt,
    encodeCompressedHex_hex pt⟩

/-- C4 as stated is false: the all-zero 64-hex secret parses the scalar 0,
whose multiple of the generator is the point at infinity; the compressed
encoding does not exist and the library raises, so parsing does not
succeed. -/
theorem C4_counterexample :
    createWalletFromSecret (List.replicate 64 '0') none none = ParseOutcome.exn ∧
    (createWalletFromSecret (List.replicate 64 '0') none none).isOk = false :=
  ⟨by decide, by decide⟩

/-- Witness for C4 at the secret `0…01` (scalar 1, point `G`). -/
theorem C4_witness :
    (createWalletFromSecret (List.replicate 63 '0' ++ ['1']) none none).isOk = true ∧
    (createWalletFromSecret (List.replicate 63 '0' ++ ['1']) none none).infoD.secretType =
      SecretType.privateKey ∧
    (createWalletFromSecret (List.replicate 63 '0' ++ ['1']) none none).infoD.algorithm =
      WalletAlgorithm.secp256k1 ∧
    (createWalletFromSecret (List.replicate 63 '0' ++ ['1']) none none).infoD.publicKey.length
      = 66 ∧
    ((createWalletFromSecret (List.replicate 63 '0' ++ ['1']) none none).infoD.publicKey.take 2
        = ['0', '2'] ∨
      (createWalletFromSecret (List.replicate 63 '0' ++ ['1']) none none).infoD.publicKey.take 2
        = ['0', '3']) ∧
    ∀ c ∈ (createWalletFromSecret (List.replicate 63 '0' ++ ['1']) none none).infoD.publicKey,
      isPyHexDigit c = true :=
  C4_parse_hex64 (List.replicate 63 '0' ++ ['1']) (by decide) (by decide) secpG (by decide)

/-- C10: on an initialized store already holding an entry under `name`,
`add_wallet(name, s)` with a valid raw-key secret succeeds (returns true),
silently replaces the wallet entry, its cached `SecretInfo` and its ledger
manager under `name` with ones derived from `s`, leaves other names
untouched, and persists the new wallet map — a duplicate name is never
reported as an error and the previous entry is gone. -/
theorem C10_add_wallet_replaces (st : StoreState) (name : String) (s : List Char)
    (network : String) (info : SecretInfo) (old : StoredWallet)
    (hunl : st.unlocked = true)
    (hparse : createWalletFromSecret s none none = ParseOutcome.ok info)
    (hold : st.wallets name = some old) :
    addWallet st name s network = AddWalletResult.done (addedState st name network info) true ∧
    (addedState st name network info).wallets name =
      some ⟨name, info.secret, network, info.secretType, info.publicKey, info.algorithm⟩ ∧
    (addedState st name network info).secretCache name = some info ∧
    (addedState st name network info).walletManagers name = some ⟨network, info⟩ ∧
    (addedState st name network info).persistedSnapshot =
      some (addedState st name network info).wallets ∧
    ∀ n, n ≠ name → (addedState st name network info).wallets n = st.wallets n := by
  refine ⟨?_, by simp [addedState], by simp [addedState], by simp [addedState], rfl, ?_⟩
  · rw [addWallet, hunl]
    simp only [Bool.not_true, Bool.false_eq_true, if_false]
    rw [hparse]
    simp [addedState, hunl]
  · intro n hn
    simp [addedState, hn]

/-- Witness for C10: adding a wallet named "alice" over the existing entry
succeeds and replaces it. -/
theorem C10_witness :
    storeWithAlice.unlocked = true ∧
    createWalletFromSecret (List.replicate 63 '0' ++ ['1']) none none =
      ParseOutcome.ok infoOne ∧
    storeWithAlice.wallets "alice" = some oldAlice ∧
    addWallet storeWithAlice "alice" (List.replicate 63 '0' ++ ['1']) "testnet" =
      AddWalletResult.done (addedState storeWithAlice "alice" "testnet" infoOne) true ∧
    (addedState storeWithAlice "alice" "testnet" infoOne).wallets "alice" =
      some ⟨"alice", infoOne.secret, "testnet", infoOne.secretType, infoOne.publicKey,
        infoOne.algorithm⟩ :=
  ⟨rfl, by decide, by simp [storeWithAlice],
   (C10_add_wallet_replaces storeWithAlice "alice" (List.replicate 63 '0' ++ ['1'])
      "testnet" infoOne oldAlice rfl (by decide) (by simp [storeWithAlice])).1,
   (C10_add_wallet_replaces storeWithAlice "alice" (List.replicate 63 '0' ++ ['1'])
      "testnet" infoOne oldAlice rfl (by decide) (by simp [storeWithAlice])).2.1⟩

theorem ctrKeystream_length (aesEnc : Bytes → Bytes → Bytes)
    (haes : ∀ key block, (aesEnc key block).length = 16) (key nonce : Bytes) (n : Nat) :
    (ctrKeystream aesEnc key nonce n).length = n * 16 := by
  rw [ctrKeystream, List.length_join, List.map_map]
  have hmap : (List.range n).map
      (List.length ∘ fun i => aesEnc key (beBytes 16 ((beVal nonce + i) % 2 ^ 128))) =
      (List.range n).map (fun _ => 16) :=
    List.map_congr_left (fun i _ => haes _ _)
  rw [hmap]
  simp [List.map_const']

theorem aesCtrXor_length (aesEnc : Bytes → Bytes → Bytes)
    (haes : ∀ key block, (aesEnc key block).length = 16) (key nonce data : Bytes) :
    (aesCtrXor aesEnc key nonce data).length = data.length := by
  rw [aesCtrXor, zipXor_length, ctrKeystream_length aesEnc haes]
  omega

theorem aesCtrXor_involution (aesEnc : Bytes → Bytes → Bytes)
    (haes : ∀ key block, (aesEnc key block).length = 16) (key nonce data : Bytes) :
    aesCtrXor aesEnc key nonce (aesCtrXor aesEnc key nonce data) = data := by
  rw [aesCtrXor, aesCtrXor_length aesEnc haes, aesCtrXor]
  exact zipXor_zipXor data _ (by rw [ctrKeystream_length aesEnc haes]; omega)

theorem flipBit_ne (b : Bytes) (i k : Nat) (hi : i < b.length) : flipBit b i k ≠ b := by
  intro hcon
  have hset : (b.set i (b.getD i 0 ^^^ 2 ^ k)).getD i 0 = b.getD i 0 ^^^ 2 ^ k := by
    rw [List.getD_eq_getElem _ _ (by simpa using hi)]
    exact List.getElem_set_self _
  have h1 : (flipBit b i k).getD i 0 = b.getD i 0 := by rw [hcon]
  rw [flipBit, hset] at h1
  have h5 : (b.getD i 0 ^^^ 2 ^ k) ^^^ b.getD i 0 = 2 ^ k := by
    rw [Nat.xor_comm (b.getD i 0) (2 ^ k), Nat.xor_assoc, Nat.xor_self, Nat.xor_zero]
  rw [h1, Nat.xor_self] at h5
  exact absurd h5.symm (Nat.pos_iff_ne_zero.mp (Nat.two_pow_pos k))

theorem encryptLegacyWallet_mac_length (aesEnc : Bytes → Bytes → Bytes)
    (password salt nonce plaintext : Bytes) :
    (encryptLegacyWallet aesEnc password salt nonce plaintext).mac.length = 32 := by
  simp [encryptLegacyWallet, hmacSha256_length]

/-- C8: in the legacy decryption utility the MAC is recomputed as
`HMAC-SHA256(key, salt ++ nonce ++ ciphertext)` and compared against the
stored MAC before any AES operation — any mismatch (in particular flipping
any single bit of an honestly computed MAC) rejects the envelope with zero
AES block invocations — and with the correct password on an honestly
constructed envelope (the writer modelled from the spec) the utility
reproduces the exact original plaintext.  The AES-256 block cipher is the
`cryptography` library's; the statement holds for every block function, the
round trip under the sole assumption that blocks are 16 bytes wide. -/
theorem C8_legacy_decrypt (aesEnc : Bytes → Bytes → Bytes) :
    (∀ (env : LegacyEnvelope) (pw : Bytes),
      env.mac ≠ hmacSha256 (pbkdf2Sha256 pw env.salt 390000 32)
        (env.salt ++ env.nonce ++ env.ciphertext) →
      decryptWalletFile aesEnc env pw = (none, 0)) ∧
    (∀ (pw salt nonce pt : Bytes) (i k : Nat),
      i < (encryptLegacyWallet aesEnc pw salt nonce pt).mac.length → k < 8 →
      decryptWalletFile aesEnc
        ⟨salt, nonce, (encryptLegacyWallet aesEnc pw salt nonce pt).ciphertext,
         flipBit (encryptLegacyWallet aesEnc pw salt nonce pt).mac i k⟩ pw = (none, 0)) ∧
    ((∀ key block, (aesEnc key block).length = 16) →
      ∀ (pw salt nonce pt : Bytes),
        decryptWalletFile aesEnc (encryptLegacyWallet aesEnc pw salt nonce pt) pw =
          (some pt, (pt.length + 15) / 16)) := by
  refine ⟨?_, ?_, ?_⟩
  · intro env pw h
    rw [decryptWalletFile, if_pos (fun heq => h heq.symm)]
  · intro pw salt nonce pt i k hi _
    simp only [decryptWalletFile, encryptLegacyWallet]
    rw [if_pos]
    refine Ne.symm (flipBit_ne _ i k ?_)
    simpa [encryptLegacyWallet, hmacSha256_length] using hi
  · intro haes pw salt nonce pt
    simp only [decryptWalletFile, encryptLegacyWallet]
    rw [if_neg (fun hcon => hcon rfl)]
    rw [aesCtrXor_involution aesEnc haes, aesCtrXor_length aesEnc haes]

/-- Witness for C8: an envelope with an empty MAC is rejected without AES;
flipping bit 0 of byte 0 of an honest envelope's MAC is rejected without
AES; the honest envelope round-trips to its plaintext. -/
theorem C8_witness :
    decryptWalletFile aes0 ⟨[], [], [], []⟩ [] = (none, 0) ∧
    decryptWalletFile aes0
      ⟨[], [], (encryptLegacyWallet aes0 [97, 98] [] [] [1, 2, 3]).ciphertext,
       flipBit (encryptLegacyWallet aes0 [97, 98] [] [] [1, 2, 3]).mac 0 0⟩ [97, 98] =
      (none, 0) ∧
    decryptWalletFile aes0 (encryptLegacyWallet aes0 [97, 98] [] [] [1, 2, 3]) [97, 98] =
      (some [1, 2, 3], 1) :=
  ⟨(C8_legacy_decrypt aes0).1 ⟨[], [], [], []⟩ []
      (by intro h
          have h2 := congrArg List.length h
          rw [hmacSha256_length] at h2
          simp at h2),
   (C8_legacy_decrypt aes0).2.1 [97, 98] [] [] [1, 2, 3] 0 0
      (by rw [encryptLegacyWallet_mac_length]; omega) (by omega),
   (C8_legacy_decrypt aes0).2.2 (fun k b => by simp [aes0]) [97, 98] [] [] [1, 2, 3]⟩

/-- C1 amended: encrypting a payload under password `W` and decrypting the
envelope with the same `W` returns the payload (given the `json` library
round-trip contract); decrypting under any password whose derived MAC key
authenticates differently — which is every practically occurring distinct
password, though not a mathematical universality (see the counterexample) —
fails the MAC comparison and raises the authentication error, returning no
plaintext. -/
theorem C1_envelope_scheme :
    (∀ (α : Type) (jdumps : α → Bytes) (jloads : Bytes → Option α)
        (pw salt nonce : Bytes) (iterations : Nat) (payload : α),
      8 ≤ pw.length →
      jloads (jdumps payload) = some payload →
      loadEncryptedStore jloads pw (encryptPayload jdumps pw salt nonce iterations payload) =
        Except.ok payload) ∧
    (∀ (α : Type) (jloads : Bytes → Option α) (pw : Bytes) (env : Envelope),
      env.mac ≠ hmacSha256 (deriveKeys pw env.salt env.iterations).2
        (env.nonce ++ env.ciphertext) →
      loadEncryptedStore jloads pw env = Except.error LoadErr.authenticationFailure) := by
  constructor
  · intro α jdumps jloads pw salt nonce iterations payload _ hround
    simp only [loadEncryptedStore, encryptPayload]
    rw [if_pos trivial, streamCipher_involution, hround]
  · intro α jloads pw env h
    simp only [loadEncryptedStore]
    rw [if_neg h]

/-- Witness for C1: a unary-coded payload round-trips under an 8-character
password, and an envelope with an empty MAC field is rejected as an
authentication failure. -/
theorem C1_witness :
    loadEncryptedStore (fun l : Bytes => some l.length) (List.replicate 8 97)
      (encryptPayload (fun n : Nat => List.replicate n 0) (List.replicate 8 97)
        [] [] 390000 5) = Except.ok 5 ∧
    loadEncryptedStore (fun l : Bytes => some l.length) (List.replicate 8 97)
      ⟨1, [], [], [], [], 390000⟩ = Except.error LoadErr.authenticationFailure :=
  ⟨C1_envelope_scheme.1 Nat (fun n => List.replicate n 0) (fun l => some l.length)
      (List.replicate 8 97) [] [] 390000 5 (by decide) (by simp),
   C1_envelope_scheme.2 Nat (fun l => some l.length) (List.replicate 8 97)
      ⟨1, [], [], [], [], 390000⟩
      (by intro h
          have h2 := congrArg List.length h
          rw [hmacSha256_length] at h2
          simp at h2)⟩

theorem getD_lt_256 (l : Bytes) (h : ∀ x ∈ l, x < 256) (i : Nat) : l.getD i 0 < 256 := by
  by_cases hi : i < l.length
  · rw [List.getD_eq_getElem _ _ hi]
    exact h _ (List.getElem_mem hi)
  · rw [List.getD_eq_default _ _ (by omega)]
    omega

theorem loadEncrypted_collision (pw1 pw2 salt nonce : Bytes) (iters : Nat) (pt : Bytes)
    (hkeys : pbkdf2Sha256 pw1 salt iters 64 = pbkdf2Sha256 pw2 salt iters 64) :
    loadEncryptedStore (fun l : Bytes => some l) pw2
      (encryptPayload (fun l : Bytes => l) pw1 salt nonce iters pt) = Except.ok pt := by
  simp only [loadEncryptedStore, encryptPayload, deriveKeys]
  rw [hkeys, if_pos rfl, streamCipher_involution]

theorem pbkdf2_collision_exists (salt : Bytes) (iters : Nat) :
    ∃ w1 w2 : Bytes, 8 ≤ w1.length ∧ 8 ≤ w2.length ∧ w1 ≠ w2 ∧
      pbkdf2Sha256 w1 salt iters 64 = pbkdf2Sha256 w2 salt iters 64 := by
  haveI : Infinite {w : Bytes // 8 ≤ w.length} :=
    Infinite.of_injective (fun n : ℕ => ⟨List.replicate (8 + n) 0, by simp⟩)
      (by intro a b hab
          have h2 := congrArg (fun w : {w : Bytes // 8 ≤ w.length} => w.val.length) hab
          simpa using h2)
  obtain ⟨w1, w2, hne, heq⟩ :=
    Finite.exists_ne_map_eq_of_infinite
      (fun w : {w : Bytes // 8 ≤ w.length} =>
        (fun i : Fin 64 =>
          (⟨(pbkdf2Sha256 w.val salt iters 64).getD i.val 0,
            getD_lt_256 _ (pbkdf2Sha256_lt _ _ _ _) _⟩ : Fin 256)))
  refine ⟨w1.val, w2.val, w1.2, w2.2, fun hv => hne (Subtype.ext hv), ?_⟩
  apply List.ext_getElem (by rw [pbkdf2Sha256_length, pbkdf2Sha256_length])
  intro i h1 h2
  have h64 : i < 64 := by rwa [pbkdf2Sha256_length] at h1
  have hv := congrArg Fin.val (congrFun heq ⟨i, h64⟩)
  simp only at hv
  rwa [List.getD_eq_getElem _ _ h1, List.getD_eq_getElem _ _ h2] at hv

/-- C1 as stated is false: passwords are infinitely many while derived key
pairs are finitely many, so two distinct passwords (both at least 8
characters) derive identical keys; decrypting an envelope encrypted under
the first with the second then passes the MAC comparison and returns the
full payload -- "decrypting with any other password fails" does not hold as
a universal statement. -/
theorem C1_counterexample :
    ¬ (∀ w wp : Bytes, 8 ≤ w.length → 8 ≤ wp.length → w ≠ wp →
        loadEncryptedStore (fun l : Bytes => some l) wp
          (encryptPayload (fun l : Bytes => l) w [] [] 390000 ([] : Bytes)) =
          Except.error LoadErr.authenticationFailure) := by
  intro hall
  obtain ⟨w1, w2, h1, h2, hne, hkeys⟩ := pbkdf2_collision_exists [] 390000
  have hsucc := loadEncrypted_collision w1 w2 [] [] 390000 [] hkeys
  have hfail := hall w1 w2 h1 h2 hne
  rw [hsucc] at hfail
  exact Except.noConfusion hfail
